import Mathlib

/-
Verification of the PayStream budgeted multi-agent orchestration engine.

Shallow embedding of src/agentService.js (runMainAgent) and
src/codebaseAgentService.js (runCodebaseAnalysis).  Currency amounts are
modelled as exact rationals; JavaScript's `Math.round` (round half towards
positive infinity) is modelled by `jsRound`, and the 2-decimal currency
rounding idiom `Math.round(x * 100) / 100` by `round2`.  External
collaborators (the Claude work service, the Hedera ledger and the MongoDB
persistence function) are modelled as oracle parameters: the outcome of each
external call site is an explicit argument of the orchestrator function.
Ledger calls (paySubAgent, refundRemainder) are assumed to succeed; their
opaque transaction ids are omitted from the event payloads.
-/

namespace PayStream

/-- JavaScript `Math.round`: round half towards +∞, i.e. `⌊x + 1/2⌋`. -/
def jsRound (x : ℚ) : ℤ := ⌊x + 1/2⌋

/-- The idiom `Math.round(x * 100) / 100`: round to whole cents. -/
def round2 (x : ℚ) : ℚ := (jsRound (x * 100) : ℚ) / 100

/-- `const AGENT_BUDGET_RATIO = 0.30` (the same constant in both services). -/
def AGENT_BUDGET_RATIO : ℚ := 30 / 100

/-- One planned work step `{agent, task, allocation}`, as produced by the
planner JSON or the fallback plan (agentService.js lines 129-133). -/
structure Step where
  agent : String
  task : String
  allocation : ℚ
deriving DecidableEq, Repr

/-- The per-step payment
`Math.round((allocation / 100) * totalAgentBudget * 100) / 100`
(agentService.js line 151, codebaseAgentService.js line 401). -/
def payment (alloc pool : ℚ) : ℚ := round2 (alloc / 100 * pool)

/-- The hard-coded default plan of agentService.js lines 129-133, used when
plan parsing fails. -/
def fallbackSteps (task : String) : List Step :=
  [⟨"Research Agent", "Research and find relevant information for: " ++ task, 40⟩,
   ⟨"Analysis Agent", "Analyze and evaluate the findings for: " ++ task, 35⟩,
   ⟨"Writer Agent", "Write a clear final report for: " ++ task, 25⟩]

/-- Plan selection (agentService.js lines 122-134).  The `try` block extracts
`JSON.parse(jsonMatch[0]).steps`; the `catch` substitutes the fallback plan.
`planOut` is the outcome of that extraction: `some steps` when the planner
text yielded a parsed steps array, `none` when extraction threw.  No
validation of the parsed steps is performed. -/
def choosePlan (planOut : Option (List Step)) (task : String) : List Step :=
  match planOut with
  | some steps => steps
  | none => fallbackSteps task

/-- Observable events sent through `onEvent` by both orchestrators. -/
inductive Event where
  | step_start (agent task : String) (allocation pmt : ℚ)
  | step_complete (agent task : String) (pmt remainingBudget : ℚ)
  | report (text : String)
  | refund (amount : ℚ)
  | agent_start (agent : String) (allocation pmt : ℚ)
  | agent_complete (agent : String) (pmt remainingBudget : ℚ)
  | agent_error (agent message : String)
  | analysis_complete
  | report_saved (shareId : String)
deriving DecidableEq, Repr

/-- Result of the `for (const step of steps)` loop of runMainAgent:
the events it emitted, the final `remainingBudget`, the exception that
escaped the loop (if any), and whether the `remainingBudget < payment`
`break` was taken. -/
structure LoopResult where
  events : List Event
  remainingBudget : ℚ
  runError : Option String
  exhausted : Bool
deriving DecidableEq, Repr

/-- The step loop of runMainAgent (agentService.js lines 149-176).
Per step: compute the payment; `break` if `remainingBudget < payment`;
emit `step_start`; run the sub-agent (`work s`, which may throw — the
exception propagates and aborts the loop); pay; deduct
`remainingBudget = Math.round((remainingBudget - payment) * 100) / 100`;
emit `step_complete`. -/
def mainLoop (work : Step → Except String String) (pool : ℚ) :
    List Step → ℚ → LoopResult
  | [], rem => ⟨[], rem, none, false⟩
  | s :: rest, rem =>
    let pmt := payment s.allocation pool
    if rem < pmt then ⟨[], rem, none, true⟩
    else
      match work s with
      | .error e => ⟨[.step_start s.agent s.task s.allocation pmt], rem, some e, false⟩
      | .ok _ =>
        let rem' := round2 (rem - pmt)
        let r := mainLoop work pool rest rem'
        ⟨.step_start s.agent s.task s.allocation pmt ::
           .step_complete s.agent s.task pmt rem' :: r.events,
         r.remainingBudget, r.runError, r.exhausted⟩

/-- The returned run outcome: `spent = budgetInHbar - remainingBudget`,
`refunded = remainingBudget` (agentService.js lines 193-199,
codebaseAgentService.js line 482). -/
structure RunOutcome where
  spent : ℚ
  refunded : ℚ
deriving DecidableEq, Repr

/-- runMainAgent (agentService.js lines 87-200).  `planOut` is the plan
extraction outcome, `work` the sub-agent oracle, `reportText` the text the
report formatter returns.  An exception from a sub-agent escapes the loop
and aborts the whole run (`Except.error`); otherwise the final report and
refund events are emitted and the outcome returned. -/
def runMainAgent (planOut : Option (List Step)) (task reportText : String)
    (work : Step → Except String String) (budgetInHbar : ℚ) :
    List Event × Except String RunOutcome :=
  let steps := choosePlan planOut task
  let totalAgentBudget := round2 (budgetInHbar * AGENT_BUDGET_RATIO)
  let r := mainLoop work totalAgentBudget steps budgetInHbar
  match r.runError with
  | some e => (r.events, .error e)
  | none =>
    (r.events ++ [.report reportText, .refund r.remainingBudget],
     .ok ⟨budgetInHbar - r.remainingBudget, r.remainingBudget⟩)

/-- Phase-2 settlement of runCodebaseAnalysis (codebaseAgentService.js lines
442-457): for each settled parallel agent, if fulfilled pay it, deduct its
payment and emit `agent_complete`; if rejected emit `agent_error` with no
payment and no deduction.  The budget mutations are serialized by the event
loop; we process them in list order. -/
def settlePhase2 (pool : ℚ) :
    List (String × ℚ × Except String Unit) → ℚ → List Event × ℚ
  | [], rem => ([], rem)
  | (name, alloc, outcome) :: rest, rem =>
    match outcome with
    | .ok _ =>
      let pmt := payment alloc pool
      let rem' := round2 (rem - pmt)
      let r := settlePhase2 pool rest rem'
      (.agent_complete name pmt rem' :: r.1, r.2)
    | .error e =>
      let r := settlePhase2 pool rest rem
      (.agent_error name e :: r.1, r.2)

/-- The phase-2 roster of runCodebaseAnalysis (codebaseAgentService.js lines
20-25 and 425-429) paired with each agent's oracle outcome. -/
def phase2Roster (simplifier analogy insight : Except String Unit) :
    List (String × ℚ × Except String Unit) :=
  [("Simplifier Agent", 20, simplifier),
   ("Analogy Agent", 25, analogy),
   ("Insight Agent", 25, insight)]

/-- runCodebaseAnalysis (codebaseAgentService.js lines 383-483).
Phase 1: `agent_start` for the Code Reader; on error an `agent_error` event
and a fallback result — but `paySubAgent` and the budget deduction happen
unconditionally after the try/catch (lines 418-420), so an
`agent_complete` event follows in every case.  Phase 2: three `agent_start`
events, `Promise.allSettled`, then per-agent settlement.  Then
`analysis_complete`, the optional persistence call (its failure swallowed
by try/catch, a truthy shareId producing `report_saved`), the final refund
event, and the returned outcome. -/
def runCodebaseAnalysis (budgetInHbar : ℚ)
    (codeReader simplifier analogy insight : Except String Unit)
    (persistResult : Option (Except String (Option String))) :
    List Event × RunOutcome :=
  let pool := round2 (budgetInHbar * AGENT_BUDGET_RATIO)
  let crPmt := payment 30 pool
  let crErrorEvents : List Event :=
    match codeReader with
    | .error e => [.agent_error "Code Reader Agent" e]
    | .ok _ => []
  let rem1 := round2 (budgetInHbar - crPmt)
  let phase1Events :=
    Event.agent_start "Code Reader Agent" 30 crPmt ::
      (crErrorEvents ++ [Event.agent_complete "Code Reader Agent" crPmt rem1])
  let roster := phase2Roster simplifier analogy insight
  let startEvents := roster.map fun a => Event.agent_start a.1 a.2.1 (payment a.2.1 pool)
  let settled := settlePhase2 pool roster rem1
  let persistEvents : List Event :=
    match persistResult with
    | some (.ok (some shareId)) => [.report_saved shareId]
    | _ => []
  (phase1Events ++ startEvents ++ settled.1 ++
     [Event.analysis_complete] ++ persistEvents ++ [Event.refund settled.2],
   ⟨budgetInHbar - settled.2, settled.2⟩)

/-- Number of events in a trace satisfying a predicate. -/
def countEvents (pred : Event → Bool) : List Event → ℕ
  | [] => 0
  | e :: rest => (if pred e then 1 else 0) + countEvents pred rest

/-- Recognizes `step_start` events (runMainAgent). -/
def isStepStart : Event → Bool
  | .step_start _ _ _ _ => true
  | _ => false

/-- Recognizes `step_complete` events (runMainAgent). -/
def isStepComplete : Event → Bool
  | .step_complete _ _ _ _ => true
  | _ => false

/-- Recognizes `agent_start` events for a given agent name. -/
def isAgentStartOf (name : String) : Event → Bool
  | .agent_start n _ _ => n == name
  | _ => false

/-- Recognizes `agent_complete` events for a given agent name. -/
def isAgentCompleteOf (name : String) : Event → Bool
  | .agent_complete n _ _ => n == name
  | _ => false

/-- Recognizes `agent_error` events for a given agent name. -/
def isAgentErrorOf (name : String) : Event → Bool
  | .agent_error n _ => n == name
  | _ => false

/-- The successive `remainingBudget` values recorded by runMainAgent's
`step_complete` events, in emission order. -/
def completionRemainings (evs : List Event) : List ℚ :=
  evs.filterMap fun e =>
    match e with
    | .step_complete _ _ _ r => some r
    | _ => none

/-- The successive `remainingBudget` values recorded by runCodebaseAnalysis'
`agent_complete` events, in emission order. -/
def agentCompletionRemainings (evs : List Event) : List ℚ :=
  evs.filterMap fun e =>
    match e with
    | .agent_complete _ _ r => some r
    | _ => none

/-- `x` is a whole number of cents. -/
def Cents (x : ℚ) : Prop := ∃ n : ℤ, x = n / 100

end PayStream

namespace PayStream

/-- Rounding an integer is the identity. -/
theorem jsRound_intCast (n : ℤ) : jsRound (n : ℚ) = n := by
  rw [jsRound, Int.floor_int_add]
  norm_num

/-- `Math.round` never moves below a nonnegative input's floor. -/
theorem jsRound_nonneg {x : ℚ} (h : 0 ≤ x) : 0 ≤ jsRound x :=
  Int.le_floor.mpr (by push_cast; linarith)

/-- `Math.round x ≤ x + 1/2`. -/
theorem jsRound_le (x : ℚ) : (jsRound x : ℚ) ≤ x + 1/2 :=
  Int.floor_le _

/-- For nonnegative `x`, `Math.round x ≤ 2x`: the round-up slack of half a
unit is only available once `x` itself is at least half a unit. -/
theorem jsRound_le_two_mul {x : ℚ} (h : 0 ≤ x) : (jsRound x : ℚ) ≤ 2 * x := by
  rcases le_or_lt (1/2) x with h2 | h2
  · calc (jsRound x : ℚ) ≤ x + 1/2 := jsRound_le x
    _ ≤ 2 * x := by linarith
  · have : jsRound x < 1 := Int.floor_lt.mpr (by push_cast; linarith)
    have : (jsRound x : ℚ) ≤ 0 := by exact_mod_cast Int.lt_add_one_iff.mp this
    linarith

/-- `Math.round` is monotone. -/
theorem jsRound_mono {x y : ℚ} (h : x ≤ y) : jsRound x ≤ jsRound y :=
  Int.floor_mono (by linarith)

/-- Subtracting a whole number commutes with `Math.round`. -/
theorem jsRound_sub_intCast (x : ℚ) (n : ℤ) : jsRound (x - n) = jsRound x - n := by
  rw [jsRound, jsRound, sub_add_eq_add_sub, Int.floor_sub_int]

/-- `round2` always produces a whole number of cents. -/
theorem cents_round2 (x : ℚ) : Cents (round2 x) := ⟨jsRound (x * 100), rfl⟩

/-- Payments are whole numbers of cents. -/
theorem cents_payment (a p : ℚ) : Cents (payment a p) := cents_round2 _

/-- Whole-cent amounts are closed under subtraction. -/
theorem cents_sub {x y : ℚ} (hx : Cents x) (hy : Cents y) : Cents (x - y) := by
  obtain ⟨n, rfl⟩ := hx
  obtain ⟨m, rfl⟩ := hy
  exact ⟨n - m, by push_cast; ring⟩

/-- `round2` is the identity on whole-cent amounts. -/
theorem round2_eq_self {x : ℚ} (h : Cents x) : round2 x = x := by
  obtain ⟨n, rfl⟩ := h
  rw [round2]
  have h100 : (n : ℚ) / 100 * 100 = (n : ℚ) := by ring
  rw [h100, jsRound_intCast]

/-- An amount fixed by `round2` is a whole number of cents. -/
theorem cents_of_round2_eq {x : ℚ} (h : round2 x = x) : Cents x := h ▸ cents_round2 x

/-- `round2` preserves nonnegativity. -/
theorem round2_nonneg {x : ℚ} (h : 0 ≤ x) : 0 ≤ round2 x := by
  rw [round2]
  have := jsRound_nonneg (by linarith : (0:ℚ) ≤ x * 100)
  positivity

/-- The payment formula with the `/100` and `*100` cancelled:
`payment a p = Math.round(a * p) / 100`. -/
theorem payment_eq (a p : ℚ) : payment a p = (jsRound (a * p) : ℚ) / 100 := by
  have h : a / 100 * p * 100 = a * p := by ring
  rw [payment, round2, h]

/-- Payments of nonnegative allocations against a nonnegative pool are
nonnegative. -/
theorem payment_nonneg {a p : ℚ} (ha : 0 ≤ a) (hp : 0 ≤ p) : 0 ≤ payment a p :=
  round2_nonneg (by positivity)

/-- Exact settlement: subtracting a whole-cent payment from a whole-cent
balance incurs no further rounding. -/
theorem round2_sub_eq {x y : ℚ} (hx : Cents x) (hy : Cents y) :
    round2 (x - y) = x - y := round2_eq_self (cents_sub hx hy)

end PayStream

namespace PayStream

/-- In the runMainAgent loop, every dispatched step emits one `step_start`,
and every step except a final failing one also emits one `step_complete`:
the starts outnumber the completions by exactly one when an exception
escaped the loop. -/
theorem mainLoop_start_complete_counts (work : Step → Except String String)
    (pool : ℚ) :
    ∀ (steps : List Step) (rem : ℚ),
      countEvents isStepStart (mainLoop work pool steps rem).events =
        countEvents isStepComplete (mainLoop work pool steps rem).events +
          (match (mainLoop work pool steps rem).runError with
           | some _ => 1
           | none => 0) := by
  intro steps
  induction steps with
  | nil => intro rem; simp [mainLoop, countEvents]
  | cons s rest ih =>
    intro rem
    rw [mainLoop]
    by_cases h : rem < payment s.allocation pool
    · simp [h, countEvents]
    · rcases hw : work s with e | v
      · simp [h, hw, countEvents, isStepStart, isStepComplete]
      · simp only [h, hw, if_false]
        simp [countEvents, isStepStart, isStepComplete, ih, Nat.add_comm,
          Nat.add_assoc, Nat.add_left_comm]

/-- `step_start` events record no balance. -/
theorem completionRemainings_start (a t : String) (al p : ℚ) (evs : List Event) :
    completionRemainings (.step_start a t al p :: evs) = completionRemainings evs := rfl

/-- A `step_complete` event records its balance. -/
theorem completionRemainings_complete (a t : String) (p r : ℚ) (evs : List Event) :
    completionRemainings (.step_complete a t p r :: evs) =
      r :: completionRemainings evs := rfl

/-- The final `remainingBudget` of the runMainAgent loop is the value
recorded by its last `step_complete` event (or the initial budget when no
step settled): each settlement is the unique mutation of the counter. -/
theorem mainLoop_remaining_getLastD (work : Step → Except String String)
    (pool : ℚ) :
    ∀ (steps : List Step) (rem : ℚ),
      (mainLoop work pool steps rem).remainingBudget =
        (completionRemainings (mainLoop work pool steps rem).events).getLastD rem := by
  intro steps
  induction steps with
  | nil => intro rem; simp [mainLoop, completionRemainings]
  | cons s rest ih =>
    intro rem
    rw [mainLoop]
    by_cases h : rem < payment s.allocation pool
    · simp [h, completionRemainings]
    · rcases hw : work s with e | v
      · simp [h, hw, completionRemainings]
      · simp only [h, hw, if_false]
        rw [completionRemainings_start, completionRemainings_complete,
          List.getLastD_cons]
        exact ih _

/-- Monotonicity of the runMainAgent budget counter: starting from a
whole-cent balance, with nonnegative allocations and a nonnegative pool,
the successive settled balances never increase. -/
theorem mainLoop_chain (work : Step → Except String String) (pool : ℚ)
    (hpool : 0 ≤ pool) :
    ∀ (steps : List Step) (rem : ℚ), Cents rem →
      (∀ st ∈ steps, 0 ≤ st.allocation) →
      List.Chain' (fun x y => y ≤ x)
        (rem :: completionRemainings (mainLoop work pool steps rem).events) := by
  intro steps
  induction steps with
  | nil => intro rem _ _; simp [mainLoop, completionRemainings]
  | cons s rest ih =>
    intro rem hrem hsteps
    rw [mainLoop]
    by_cases h : rem < payment s.allocation pool
    · simp [h, completionRemainings]
    · rcases hw : work s with e | v
      · simp [h, hw, completionRemainings]
      · simp only [h, hw, if_false]
        have hpay : 0 ≤ payment s.allocation pool :=
          payment_nonneg (hsteps s (by simp)) hpool
        have hexact : round2 (rem - payment s.allocation pool) =
            rem - payment s.allocation pool :=
          round2_sub_eq hrem (cents_payment _ _)
        have hle : round2 (rem - payment s.allocation pool) ≤ rem := by
          rw [hexact]; linarith
        have htail := ih (round2 (rem - payment s.allocation pool))
          (cents_round2 _) (fun st hst => hsteps st (by simp [hst]))
        rw [completionRemainings_start, completionRemainings_complete,
          List.chain'_cons]
        exact ⟨hle, htail⟩

end PayStream

namespace PayStream

/-- `agent_complete` events record their balance. -/
theorem agentCompletionRemainings_complete (a : String) (p r : ℚ) (evs : List Event) :
    agentCompletionRemainings (.agent_complete a p r :: evs) =
      r :: agentCompletionRemainings evs := rfl

/-- `agent_error` events record no balance. -/
theorem agentCompletionRemainings_error (a m : String) (evs : List Event) :
    agentCompletionRemainings (.agent_error a m :: evs) =
      agentCompletionRemainings evs := rfl

/-- Phase-2 settlement spends exactly the payments of the fulfilled agents:
the final balance is the starting balance minus the sum of the payments of
the agents whose work succeeded (failed agents deduct nothing). -/
theorem settlePhase2_remaining (pool : ℚ) :
    ∀ (l : List (String × ℚ × Except String Unit)) (rem : ℚ), Cents rem →
      (settlePhase2 pool l rem).2 =
        rem - (l.map fun a =>
          match a.2.2 with
          | .ok _ => payment a.2.1 pool
          | .error _ => 0).sum := by
  intro l
  induction l with
  | nil => intro rem _; simp [settlePhase2]
  | cons a rest ih =>
    intro rem hrem
    obtain ⟨name, alloc, outcome⟩ := a
    rcases outcome with e | v
    · rw [settlePhase2]
      simp only [List.map_cons, List.sum_cons]
      rw [ih rem hrem]
      ring
    · rw [settlePhase2]
      simp only [List.map_cons, List.sum_cons]
      have hexact : round2 (rem - payment alloc pool) = rem - payment alloc pool :=
        round2_sub_eq hrem (cents_payment _ _)
      rw [ih _ (cents_round2 _), hexact]
      ring

/-- Monotonicity of the phase-2 settlement chain: from a whole-cent balance
and nonnegative allocations, the balances recorded by successive
`agent_complete` events never increase. -/
theorem settlePhase2_chain (pool : ℚ) (hpool : 0 ≤ pool) :
    ∀ (l : List (String × ℚ × Except String Unit)) (rem : ℚ), Cents rem →
      (∀ x ∈ l, 0 ≤ x.2.1) →
      List.Chain' (fun x y => y ≤ x)
        (rem :: agentCompletionRemainings (settlePhase2 pool l rem).1) := by
  intro l
  induction l with
  | nil => intro rem _ _; simp [settlePhase2, agentCompletionRemainings]
  | cons a rest ih =>
    intro rem hrem hallocs
    obtain ⟨name, alloc, outcome⟩ := a
    rcases outcome with e | v
    · rw [settlePhase2]
      rw [agentCompletionRemainings_error]
      exact ih rem hrem (fun x hx => hallocs x (by simp [hx]))
    · rw [settlePhase2]
      rw [agentCompletionRemainings_complete]
      have hpay : 0 ≤ payment alloc pool :=
        payment_nonneg (by simpa using hallocs (name, alloc, .ok v) (by simp)) hpool
      have hexact : round2 (rem - payment alloc pool) = rem - payment alloc pool :=
        round2_sub_eq hrem (cents_payment _ _)
      have hle : round2 (rem - payment alloc pool) ≤ rem := by rw [hexact]; linarith
      have htail := ih (round2 (rem - payment alloc pool)) (cents_round2 _)
        (fun x hx => hallocs x (by simp [hx]))
      rw [List.chain'_cons]
      exact ⟨hle, htail⟩

end PayStream

namespace PayStream

/-- The sum of a plan's rounded payments against a nonnegative pool is at
most double the exact pro-rata total: rounding can at most double each
share (a share below half a cent rounds to zero, a larger share gains at
most half a cent, i.e. at most its own size). -/
theorem sum_payments_le (pool : ℚ) (hpool : 0 ≤ pool) :
    ∀ steps : List Step, (∀ st ∈ steps, 0 ≤ st.allocation) →
      (steps.map fun st => payment st.allocation pool).sum ≤
        (steps.map Step.allocation).sum * pool / 50 := by
  intro steps
  induction steps with
  | nil => intro _; simp
  | cons s rest ih =>
    intro h
    simp only [List.map_cons, List.sum_cons]
    have ha : 0 ≤ s.allocation := h s (by simp)
    have h1 : payment s.allocation pool ≤ s.allocation * pool / 50 := by
      rw [payment_eq]
      have h2m := jsRound_le_two_mul (x := s.allocation * pool) (by positivity)
      linarith
    have h2 := ih (fun st hst => h st (by simp [hst]))
    have hsplit : (s.allocation + (rest.map Step.allocation).sum) * pool / 50
        = s.allocation * pool / 50 + (rest.map Step.allocation).sum * pool / 50 := by
      ring
    linarith

/-- Payments of a nonnegative plan against a nonnegative pool have a
nonnegative sum. -/
theorem sum_payments_nonneg (pool : ℚ) (hpool : 0 ≤ pool)
    (steps : List Step) (h : ∀ st ∈ steps, 0 ≤ st.allocation) :
    0 ≤ (steps.map fun st => payment st.allocation pool).sum := by
  apply List.sum_nonneg
  intro x hx
  obtain ⟨st, hst, rfl⟩ := List.mem_map.mp hx
  exact payment_nonneg (h st hst) hpool

/-- Invariant form of the exhaustion argument: if the whole-cent balance
covers the sum of all remaining rounded payments, the `break` branch of the
runMainAgent loop is never taken, and (absent a worker exception) every
remaining step is dispatched. -/
theorem mainLoop_covered (work : Step → Except String String) (pool : ℚ)
    (hpool : 0 ≤ pool) :
    ∀ (steps : List Step) (rem : ℚ), Cents rem →
      (∀ st ∈ steps, 0 ≤ st.allocation) →
      (steps.map fun st => payment st.allocation pool).sum ≤ rem →
      (mainLoop work pool steps rem).exhausted = false ∧
      ((mainLoop work pool steps rem).runError = none →
        countEvents isStepStart (mainLoop work pool steps rem).events =
          steps.length) := by
  intro steps
  induction steps with
  | nil => intro rem _ _ _; simp [mainLoop, countEvents]
  | cons s rest ih =>
    intro rem hrem hallocs hcover
    have ha : 0 ≤ s.allocation := hallocs s (by simp)
    have hrest : ∀ st ∈ rest, 0 ≤ st.allocation :=
      fun st hst => hallocs st (by simp [hst])
    have hrestsum := sum_payments_nonneg pool hpool rest hrest
    simp only [List.map_cons, List.sum_cons] at hcover
    have hnot : ¬ rem < payment s.allocation pool := by
      push_neg
      linarith
    rw [mainLoop]
    rcases hw : work s with e | v
    · simp [hnot, hw, countEvents]
    · simp only [hnot, hw, if_false]
      have hexact : round2 (rem - payment s.allocation pool) =
          rem - payment s.allocation pool :=
        round2_sub_eq hrem (cents_payment _ _)
      have hih := ih (round2 (rem - payment s.allocation pool)) (cents_round2 _)
        hrest (by rw [hexact]; linarith)
      refine ⟨hih.1, fun hnone => ?_⟩
      have hc := hih.2 hnone
      simp [countEvents, isStepStart, hc]
      omega

/-- The agent pool never exceeds the budget: it is 30% of the budget
rounded to cents, and the half-cent round-up slack is covered as soon as
the pool is at least one cent. -/
theorem pool_le_budget {b : ℚ} (hb : 0 < b) :
    round2 (b * AGENT_BUDGET_RATIO) ≤ b := by
  have hargR : jsRound (b * AGENT_BUDGET_RATIO * 100) = jsRound (30 * b) := by
    rw [ AGENT_BUDGET_RATIO]
    ring_nf
  have hP0 : 0 ≤ jsRound (30 * b) := jsRound_nonneg (by positivity)
  rw [round2, hargR]
  rcases lt_or_le (jsRound (30 * b)) 1 with hP | hP
  · have hP0' : jsRound (30 * b) = 0 := by omega
    rw [hP0']
    norm_num
    linarith
  · have hub : (jsRound (30 * b) : ℚ) ≤ 30 * b + 1/2 := jsRound_le (30 * b)
    have hlb : (1 : ℚ) ≤ (jsRound (30 * b) : ℚ) := by exact_mod_cast hP
    rw [div_le_iff₀ (by norm_num : (0:ℚ) < 100)]
    linarith

/-- Twice the agent pool is at most the budget rounded to cents (the key
inequality behind unreachability of the exhaustion branch). -/
theorem two_pool_le_round2_budget {b : ℚ} (hb : 0 < b) :
    2 * round2 (b * AGENT_BUDGET_RATIO) ≤ round2 b := by
  have hargR : jsRound (b * AGENT_BUDGET_RATIO * 100) = jsRound (30 * b) := by
    rw [ AGENT_BUDGET_RATIO]
    ring_nf
  have hR0 : 0 ≤ jsRound (b * 100) := jsRound_nonneg (by positivity)
  rw [round2, round2, hargR]
  rcases lt_or_le (jsRound (30 * b)) 1 with hP | hP
  · have hP0 : 0 ≤ jsRound (30 * b) := jsRound_nonneg (by positivity)
    have hP0' : jsRound (30 * b) = 0 := by omega
    rw [hP0']
    have hcast : (0:ℚ) ≤ (jsRound (b * 100) : ℚ) := by exact_mod_cast hR0
    norm_num
    linarith
  · have hub : (jsRound (30 * b) : ℚ) ≤ 30 * b + 1/2 := jsRound_le (30 * b)
    have hlb : (1 : ℚ) ≤ (jsRound (30 * b) : ℚ) := by exact_mod_cast hP
    have hkey : 2 * jsRound (30 * b) ≤ jsRound (b * 100) := by
      unfold jsRound
      rw [Int.le_floor]
      push_cast
      have hfl : (⌊30 * b + 1/2⌋ : ℚ) ≤ 30 * b + 1/2 := Int.floor_le _
      have hfl1 : (1 : ℚ) ≤ (⌊30 * b + 1/2⌋ : ℚ) := by
        have : (1 : ℤ) ≤ ⌊30 * b + 1/2⌋ := hP
        exact_mod_cast this
      linarith
    have hcast : (2 * jsRound (30 * b) : ℚ) ≤ (jsRound (b * 100) : ℚ) := by
      exact_mod_cast hkey
    linarith

end PayStream

namespace PayStream

/-- C1: For every terminating run of either orchestrator with initial
budget B, the returned outcome satisfies `totalSpent + totalRefunded = B`
exactly: `spent` is reported as B minus the final `remainingBudget` and
`refunded` as the final `remainingBudget` (runCodebaseAnalysis always
terminates with an outcome; runMainAgent whenever it returns one). -/
theorem conservation_law :
    (∀ (budgetInHbar : ℚ) (codeReader simplifier analogy insight : Except String Unit)
        (persistResult : Option (Except String (Option String))),
      ((runCodebaseAnalysis budgetInHbar codeReader simplifier analogy insight
          persistResult).2).spent +
        ((runCodebaseAnalysis budgetInHbar codeReader simplifier analogy insight
          persistResult).2).refunded = budgetInHbar) ∧
    (∀ (planOut : Option (List Step)) (task reportText : String)
        (work : Step → Except String String) (budgetInHbar : ℚ)
        (evs : List Event) (o : RunOutcome),
      runMainAgent planOut task reportText work budgetInHbar = (evs, Except.ok o) →
      o.spent + o.refunded = budgetInHbar) := by
  constructor
  · intro b cr s a i p
    simp [runCodebaseAnalysis]
  · intro planOut task reportText work b evs o h
    simp only [runMainAgent] at h
    rcases hr : (mainLoop work (round2 (b * AGENT_BUDGET_RATIO))
        (choosePlan planOut task) b).runError with - | e
    · rw [hr] at h
      simp only [Prod.mk.injEq, Except.ok.injEq] at h
      obtain ⟨-, h2⟩ := h
      subst h2
      simp
    · rw [hr] at h
      simp at h

/-- Witness for C1 at concrete inputs (budget 1, all work succeeding). -/
theorem conservation_law_witness :
    (⟨31/100, 69/100⟩ : RunOutcome).spent +
      (⟨31/100, 69/100⟩ : RunOutcome).refunded = 1 :=
  conservation_law.2 none "t" "r" (fun _ => Except.ok "") 1
    ((runMainAgent none "t" "r" (fun _ => Except.ok "") 1).1) ⟨31/100, 69/100⟩
    (by
      norm_num [runMainAgent, choosePlan, fallbackSteps, mainLoop, payment,
        round2, jsRound, AGENT_BUDGET_RATIO])

/-- When every sub-agent call succeeds, no exception ever escapes the
runMainAgent step loop. -/
theorem mainLoop_runError_none_of_ok (work : Step → Except String String)
    (pool : ℚ) (hwork : ∀ s, ∃ v, work s = Except.ok v) :
    ∀ (steps : List Step) (rem : ℚ),
      (mainLoop work pool steps rem).runError = none := by
  intro steps
  induction steps with
  | nil => intro rem; rfl
  | cons s rest ih =>
    intro rem
    rw [mainLoop]
    by_cases h : rem < payment s.allocation pool
    · simp [h]
    · obtain ⟨v, hv⟩ := hwork s
      simp [h, hv, ih]

/-- C2 counterexample: the code performs no validation of a successfully
parsed plan.  A parsed plan with an out-of-bounds allocation (200 ∉
[15, 60]) is used as-is, is not replaced by the fallback plan, and its
allocations do not sum to 100; a parsed empty step list is likewise
accepted.  And a parsed plan whose in-bounds allocations 20/30 sum to 50 ∉
[100-ε, 100+ε] drives a complete run: both of its steps are dispatched and
the run finishes having spent only 0.15 of the 0.3 pool.  This falsifies
the claim that any validation violation triggers the fallback plan and
that the plan actually used always sums to 100. -/
theorem plan_used_without_validation :
    choosePlan (some [⟨"Research Agent", "x", 200⟩]) "t" =
      [⟨"Research Agent", "x", 200⟩] ∧
    ((choosePlan (some [⟨"Research Agent", "x", 200⟩]) "t").map
        Step.allocation).sum ≠ 100 ∧
    choosePlan (some [⟨"Research Agent", "x", 200⟩]) "t" ≠ fallbackSteps "t" ∧
    choosePlan (some []) "t" = [] ∧
    ((choosePlan (some [⟨"Research Agent", "a", 20⟩, ⟨"Analysis Agent", "b", 30⟩])
        "t").map Step.allocation).sum = 50 ∧
    countEvents isStepStart
      (runMainAgent (some [⟨"Research Agent", "a", 20⟩, ⟨"Analysis Agent", "b", 30⟩])
        "t" "r" (fun _ => Except.ok "") 1).1 = 2 ∧
    (runMainAgent (some [⟨"Research Agent", "a", 20⟩, ⟨"Analysis Agent", "b", 30⟩])
        "t" "r" (fun _ => Except.ok "") 1).2 = Except.ok ⟨15/100, 85/100⟩ := by
  refine ⟨rfl, ?_, ?_, rfl, ?_, ?_, ?_⟩
  · norm_num [choosePlan]
  · simp [choosePlan, fallbackSteps]
  · norm_num [choosePlan]
  · norm_num [runMainAgent, choosePlan, mainLoop, payment, round2, jsRound,
      AGENT_BUDGET_RATIO, countEvents, isStepStart]
  · norm_num [runMainAgent, choosePlan, mainLoop, payment, round2, jsRound,
      AGENT_BUDGET_RATIO]

/-- C2 amended: only unparsable planner output triggers the deterministic
fallback plan (the fixed 40/35/25 three-role split built from the task
string, whose allocations sum to 100 and each lie within the prompt's
[15, 60] bounds); successfully parsed output is used without any
validation.  A run on the fallback plan with non-failing workers always
returns an outcome, so the run indeed never aborts due to planning
failure. -/
theorem plan_fallback_only_on_parse_failure :
    ∀ task : String,
      choosePlan none task = fallbackSteps task ∧
      ((fallbackSteps task).map Step.allocation).sum = 100 ∧
      (∀ st ∈ fallbackSteps task, 15 ≤ st.allocation ∧ st.allocation ≤ 60) ∧
      (∀ steps : List Step, choosePlan (some steps) task = steps) ∧
      ∀ (reportText : String) (b : ℚ), ∃ o : RunOutcome,
        (runMainAgent none task reportText (fun _ => Except.ok "") b).2 =
          Except.ok o := by
  intro task
  refine ⟨rfl, ?_, ?_, fun _ => rfl, ?_⟩
  · norm_num [fallbackSteps]
  · intro st hst
    simp only [fallbackSteps, List.mem_cons, List.not_mem_nil, or_false] at hst
    rcases hst with rfl | rfl | rfl <;> norm_num
  · intro reportText b
    have hnone := mainLoop_runError_none_of_ok (fun _ => Except.ok "")
      (round2 (b * AGENT_BUDGET_RATIO)) (fun s => ⟨"", rfl⟩)
      (choosePlan none task) b
    refine ⟨⟨b - (mainLoop (fun _ => Except.ok "") (round2 (b * AGENT_BUDGET_RATIO))
        (choosePlan none task) b).remainingBudget,
      (mainLoop (fun _ => Except.ok "") (round2 (b * AGENT_BUDGET_RATIO))
        (choosePlan none task) b).remainingBudget⟩, ?_⟩
    simp only [runMainAgent, hnone]

/-- C3 counterexample: in runMainAgent a work-step failure is NOT isolated:
with every sub-agent call failing, the run returns a run-level error, and
the only event emitted is the first step's `step_start` — there is no
per-step error event, no further step, no report and no refund. -/
theorem main_worker_failure_aborts_run :
    (runMainAgent none "t" "r" (fun _ => Except.error "boom") 1).2 =
      Except.error "boom" ∧
    (runMainAgent none "t" "r" (fun _ => Except.error "boom") 1).1 =
      [Event.step_start "Research Agent"
        ("Research and find relevant information for: " ++ "t") 40 (12/100)] := by
  constructor <;>
    norm_num [runMainAgent, choosePlan, fallbackSteps, mainLoop, payment,
      round2, jsRound, AGENT_BUDGET_RATIO]

set_option maxHeartbeats 1600000 in
/-- C3 amended: bulkhead isolation holds in runCodebaseAnalysis: a failed
parallel step is recorded as exactly one `agent_error` event, is dispatched
exactly once (one `agent_start`, hence never retried), does not prevent the
non-failing parallel steps from settling with their `agent_complete`
events, and the run still reaches the final refund.  In runMainAgent, by
contrast, a work-step failure propagates as a run-level error and aborts
the run (see the counterexample). -/
theorem bulkhead_isolation_codebase :
    ∀ (b : ℚ) (cr s a i : Except String Unit)
      (p : Option (Except String (Option String))),
      countEvents (isAgentStartOf "Simplifier Agent")
        (runCodebaseAnalysis b cr s a i p).1 = 1 ∧
      countEvents (isAgentCompleteOf "Simplifier Agent")
        (runCodebaseAnalysis b cr s a i p).1 =
        (match s with | .ok _ => 1 | .error _ => 0) ∧
      countEvents (isAgentErrorOf "Simplifier Agent")
        (runCodebaseAnalysis b cr s a i p).1 =
        (match s with | .ok _ => 0 | .error _ => 1) ∧
      countEvents (isAgentStartOf "Analogy Agent")
        (runCodebaseAnalysis b cr s a i p).1 = 1 ∧
      countEvents (isAgentCompleteOf "Analogy Agent")
        (runCodebaseAnalysis b cr s a i p).1 =
        (match a with | .ok _ => 1 | .error _ => 0) ∧
      countEvents (isAgentErrorOf "Analogy Agent")
        (runCodebaseAnalysis b cr s a i p).1 =
        (match a with | .ok _ => 0 | .error _ => 1) ∧
      countEvents (isAgentStartOf "Insight Agent")
        (runCodebaseAnalysis b cr s a i p).1 = 1 ∧
      countEvents (isAgentCompleteOf "Insight Agent")
        (runCodebaseAnalysis b cr s a i p).1 =
        (match i with | .ok _ => 1 | .error _ => 0) ∧
      countEvents (isAgentErrorOf "Insight Agent")
        (runCodebaseAnalysis b cr s a i p).1 =
        (match i with | .ok _ => 0 | .error _ => 1) ∧
      Event.refund ((runCodebaseAnalysis b cr s a i p).2).refunded ∈
        (runCodebaseAnalysis b cr s a i p).1 := by
  intro b cr s a i p
  rcases cr with e1 | v1 <;> rcases s with e2 | v2 <;> rcases a with e3 | v3 <;>
    rcases i with e4 | v4 <;> rcases p with - | (e5 | (- | sid)) <;>
    simp [runCodebaseAnalysis, phase2Roster, settlePhase2, countEvents,
      isAgentStartOf, isAgentCompleteOf, isAgentErrorOf]

end PayStream

namespace PayStream

/-- C4 counterexample: when the sequential Code Reader step fails, a
payment IS made for it and `remainingBudget` IS mutated: with budget 1 the
trace contains both its `agent_error` and an `agent_complete` paying 0.09
and dropping the balance to 0.91, and the final refund is 0.69 — the
failed step's 0.09 allocation share is not retained for the refund. -/
theorem failed_code_reader_still_paid :
    Event.agent_error "Code Reader Agent" "boom" ∈
      (runCodebaseAnalysis 1 (.error "boom") (.ok ()) (.ok ()) (.ok ()) none).1 ∧
    Event.agent_complete "Code Reader Agent" (9/100) (91/100) ∈
      (runCodebaseAnalysis 1 (.error "boom") (.ok ()) (.ok ()) (.ok ()) none).1 ∧
    ((runCodebaseAnalysis 1 (.error "boom") (.ok ()) (.ok ()) (.ok ())
        none).2).refunded = 69/100 := by
  refine ⟨?_, ?_, ?_⟩ <;>
    norm_num [runCodebaseAnalysis, phase2Roster, settlePhase2, payment, round2,
      jsRound, AGENT_BUDGET_RATIO]

set_option maxHeartbeats 1600000 in
/-- C4 amended: in the parallel phase a failed step is not paid and does
not mutate `remainingBudget` — the amount spent is exactly the Code Reader
payment plus the payments of the successful parallel agents (a failed
parallel agent contributes 0, so its share is folded into the refund).
The sequential Code Reader step, however, is paid and deducted
unconditionally, even when it fails (exactly one `agent_complete` for it
in every run). -/
theorem failure_payment_semantics :
    ∀ (b : ℚ) (cr s a i : Except String Unit)
      (p : Option (Except String (Option String))),
      round2 b = b →
      ((runCodebaseAnalysis b cr s a i p).2).spent =
        payment 30 (round2 (b * AGENT_BUDGET_RATIO)) +
        ((match s with
          | .ok _ => payment 20 (round2 (b * AGENT_BUDGET_RATIO))
          | .error _ => 0) +
         ((match a with
           | .ok _ => payment 25 (round2 (b * AGENT_BUDGET_RATIO))
           | .error _ => 0) +
          (match i with
           | .ok _ => payment 25 (round2 (b * AGENT_BUDGET_RATIO))
           | .error _ => 0))) ∧
      countEvents (isAgentCompleteOf "Code Reader Agent")
        (runCodebaseAnalysis b cr s a i p).1 = 1 := by
  intro b cr s a i p hb
  constructor
  · have hcents : Cents b := cents_of_round2_eq hb
    have hrem1 : round2 (b - payment 30 (round2 (b * AGENT_BUDGET_RATIO))) =
        b - payment 30 (round2 (b * AGENT_BUDGET_RATIO)) :=
      round2_sub_eq hcents (cents_payment _ _)
    have key : ((runCodebaseAnalysis b cr s a i p).2).spent
        = b - (settlePhase2 (round2 (b * AGENT_BUDGET_RATIO)) (phase2Roster s a i)
            (round2 (b - payment 30 (round2 (b * AGENT_BUDGET_RATIO))))).2 := by
      simp [runCodebaseAnalysis]
    rw [key, settlePhase2_remaining _ _ _ (cents_round2 _), hrem1]
    simp only [phase2Roster, List.map_cons, List.map_nil, List.sum_cons,
      List.sum_nil]
    rcases s with e2 | v2 <;> rcases a with e3 | v3 <;> rcases i with e4 | v4 <;>
      ring
  · rcases cr with e1 | v1 <;> rcases s with e2 | v2 <;> rcases a with e3 | v3 <;>
      rcases i with e4 | v4 <;> rcases p with - | (e5 | (- | sid)) <;>
      simp [runCodebaseAnalysis, phase2Roster, settlePhase2, countEvents,
        isAgentCompleteOf]

/-- Witness for C4 amended at budget 1 with a failing Code Reader. -/
theorem failure_payment_semantics_witness :
    ((runCodebaseAnalysis 1 (.error "x") (.ok ()) (.ok ()) (.ok ())
        none).2).spent =
      payment 30 (round2 (1 * AGENT_BUDGET_RATIO)) +
      ((match (Except.ok () : Except String Unit) with
        | .ok _ => payment 20 (round2 (1 * AGENT_BUDGET_RATIO))
        | .error _ => 0) +
       ((match (Except.ok () : Except String Unit) with
         | .ok _ => payment 25 (round2 (1 * AGENT_BUDGET_RATIO))
         | .error _ => 0) +
        (match (Except.ok () : Except String Unit) with
         | .ok _ => payment 25 (round2 (1 * AGENT_BUDGET_RATIO))
         | .error _ => 0))) ∧
    countEvents (isAgentCompleteOf "Code Reader Agent")
      (runCodebaseAnalysis 1 (.error "x") (.ok ()) (.ok ()) (.ok ()) none).1 = 1 :=
  failure_payment_semantics 1 (.error "x") (.ok ()) (.ok ()) (.ok ()) none
    (by norm_num [round2, jsRound])

/-- C5 counterexample: the pre-dispatch check compares the payment against
the full remaining budget (initially the whole 1.0), not the 0.3 agent
pool: a first step costing 0.6 > 0.3 is still dispatched (one
`step_start`), and the refund is 0.4, not 1.0. -/
theorem exhaustion_check_against_full_budget :
    payment 200 (round2 (1 * AGENT_BUDGET_RATIO)) = 3/5 ∧
    ((3:ℚ)/10) < 3/5 ∧
    countEvents isStepStart
      (runMainAgent (some [⟨"Research Agent", "go", 200⟩]) "t" "r"
        (fun _ => Except.ok "done") 1).1 = 1 ∧
    (runMainAgent (some [⟨"Research Agent", "go", 200⟩]) "t" "r"
        (fun _ => Except.ok "done") 1).2 = Except.ok ⟨3/5, 2/5⟩ := by
  refine ⟨?_, by norm_num, ?_, ?_⟩ <;>
    norm_num [runMainAgent, choosePlan, mainLoop, payment, round2, jsRound,
      AGENT_BUDGET_RATIO, countEvents, isStepStart]

/-- C5 amended: runMainAgent checks `remainingBudget >= payment` before
each sequential dispatch, where `remainingBudget` starts at the full
initial budget (not the agent pool); when the FIRST step's payment exceeds
the full budget, zero steps are dispatched and the entire budget is
refunded. -/
theorem sequential_halt_on_insufficient_budget :
    ∀ (planOut : Option (List Step)) (task reportText : String)
      (work : Step → Except String String) (b : ℚ) (s : Step) (rest : List Step),
      choosePlan planOut task = s :: rest →
      b < payment s.allocation (round2 (b * AGENT_BUDGET_RATIO)) →
      runMainAgent planOut task reportText work b =
        ([Event.report reportText, Event.refund b], Except.ok ⟨0, b⟩) := by
  intro planOut task reportText work b s rest hplan hlt
  simp only [runMainAgent, hplan]
  rw [mainLoop]
  simp [hlt]

/-- Witness for C5 amended: a single step allocated 400% costs 1.2 > 1. -/
theorem sequential_halt_witness :
    runMainAgent (some [⟨"A", "t", 400⟩]) "t" "r" (fun _ => Except.ok "") 1 =
      ([Event.report "r", Event.refund 1], Except.ok ⟨0, 1⟩) :=
  sequential_halt_on_insufficient_budget (some [⟨"A", "t", 400⟩]) "t" "r"
    (fun _ => Except.ok "") 1 ⟨"A", "t", 400⟩ [] rfl
    (by norm_num [payment, round2, jsRound, AGENT_BUDGET_RATIO])

/-- C6 counterexample: the claimed payments 0.105 and 0.075 are impossible:
`Math.round(x*100)/100` only produces whole cents; the run with budget 1
and the fallback plan does not yield spent 0.3 / refunded 0.7. -/
theorem scenario_a_payments_not_as_specified :
    payment 35 (round2 (1 * AGENT_BUDGET_RATIO)) ≠ 105/1000 ∧
    payment 25 (round2 (1 * AGENT_BUDGET_RATIO)) ≠ 75/1000 ∧
    (runMainAgent none "t" "r" (fun _ => Except.ok "") 1).2 ≠
      Except.ok ⟨3/10, 7/10⟩ := by
  refine ⟨?_, ?_, ?_⟩ <;>
    norm_num [runMainAgent, choosePlan, fallbackSteps, mainLoop, payment,
      round2, jsRound, AGENT_BUDGET_RATIO]

/-- C6 amended: with budget 1.0 and the fallback 40/35/25 plan, all steps
succeeding, the agent pool is 0.3, the payments (rounded half-up to whole
cents) are 0.12, 0.11 and 0.08, and the outcome is spent 0.31 / refunded
0.69. -/
theorem scenario_a_exact_arithmetic :
    round2 (1 * AGENT_BUDGET_RATIO) = 3/10 ∧
    payment 40 (3/10) = 12/100 ∧
    payment 35 (3/10) = 11/100 ∧
    payment 25 (3/10) = 8/100 ∧
    (runMainAgent none "t" "r" (fun _ => Except.ok "") 1).2 =
      Except.ok ⟨31/100, 69/100⟩ := by
  refine ⟨?_, ?_, ?_, ?_, ?_⟩ <;>
    norm_num [runMainAgent, choosePlan, fallbackSteps, mainLoop, payment,
      round2, jsRound, AGENT_BUDGET_RATIO]

end PayStream

namespace PayStream

/-- C7 counterexample: the per-step event discipline is violated on both
orchestrators.  A failing Code Reader step produces a start event followed
by BOTH an error and a complete event; a failing runMainAgent step
produces a start event followed by NEITHER a complete nor an error event
(its trace is the lone `step_start`). -/
theorem per_step_event_anomalies :
    countEvents (isAgentStartOf "Code Reader Agent")
      (runCodebaseAnalysis 1 (.error "crash") (.ok ()) (.ok ()) (.ok ()) none).1
      = 1 ∧
    countEvents (isAgentErrorOf "Code Reader Agent")
      (runCodebaseAnalysis 1 (.error "crash") (.ok ()) (.ok ()) (.ok ()) none).1
      = 1 ∧
    countEvents (isAgentCompleteOf "Code Reader Agent")
      (runCodebaseAnalysis 1 (.error "crash") (.ok ()) (.ok ()) (.ok ()) none).1
      = 1 ∧
    countEvents isStepStart
      (runMainAgent none "u" "v" (fun _ => Except.error "crash") 1).1 = 1 ∧
    countEvents isStepComplete
      (runMainAgent none "u" "v" (fun _ => Except.error "crash") 1).1 = 0 ∧
    (runMainAgent none "u" "v" (fun _ => Except.error "crash") 1).1 =
      [Event.step_start "Research Agent"
        ("Research and find relevant information for: " ++ "u") 40 (12/100)] := by
  refine ⟨?_, ?_, ?_, ?_, ?_, ?_⟩ <;>
    (norm_num [runCodebaseAnalysis, runMainAgent, choosePlan, fallbackSteps,
      mainLoop, phase2Roster, settlePhase2, countEvents, isAgentStartOf,
      isAgentErrorOf, isAgentCompleteOf, isStepStart, isStepComplete, payment,
      round2, jsRound, AGENT_BUDGET_RATIO] <;> simp)

set_option maxHeartbeats 1600000 in
/-- C7 amended: in runCodebaseAnalysis the Code Reader emits exactly one
start and exactly one complete event in every run, plus one error event
exactly when it fails (so a failing run emits both); in runMainAgent the
number of start events always equals the number of complete events plus
one exactly when a worker exception aborted the loop (a failing step emits
its start and then neither completion nor a per-step error event). -/
theorem per_step_event_discipline :
    (∀ (b : ℚ) (cr s a i : Except String Unit)
        (p : Option (Except String (Option String))),
      countEvents (isAgentStartOf "Code Reader Agent")
        (runCodebaseAnalysis b cr s a i p).1 = 1 ∧
      countEvents (isAgentCompleteOf "Code Reader Agent")
        (runCodebaseAnalysis b cr s a i p).1 = 1 ∧
      countEvents (isAgentErrorOf "Code Reader Agent")
        (runCodebaseAnalysis b cr s a i p).1 =
        (match cr with | .ok _ => 0 | .error _ => 1)) ∧
    (∀ (work : Step → Except String String) (pool : ℚ)
        (steps : List Step) (rem : ℚ),
      countEvents isStepStart (mainLoop work pool steps rem).events =
        countEvents isStepComplete (mainLoop work pool steps rem).events +
          (match (mainLoop work pool steps rem).runError with
           | some _ => 1
           | none => 0)) := by
  constructor
  · intro b cr s a i p
    rcases cr with e1 | v1 <;> rcases s with e2 | v2 <;> rcases a with e3 | v3 <;>
      rcases i with e4 | v4 <;> rcases p with - | (e5 | (- | sid)) <;>
      simp [runCodebaseAnalysis, phase2Roster, settlePhase2, countEvents,
        isAgentStartOf, isAgentCompleteOf, isAgentErrorOf]
  · intro work pool steps rem
    exact mainLoop_start_complete_counts work pool steps rem

/-- C9: the persistence collaborator is optional and its failure is
swallowed: the returned outcome is identical for every persistence
behaviour (absent, throwing, or succeeding), and the run always emits its
final refund event. -/
theorem persistence_is_optional :
    ∀ (b : ℚ) (cr s a i : Except String Unit)
      (p : Option (Except String (Option String))),
      (runCodebaseAnalysis b cr s a i p).2 =
        (runCodebaseAnalysis b cr s a i none).2 ∧
      Event.refund ((runCodebaseAnalysis b cr s a i p).2).refunded ∈
        (runCodebaseAnalysis b cr s a i p).1 := by
  intro b cr s a i p
  constructor
  · rfl
  · simp [runCodebaseAnalysis, List.mem_append]

end PayStream

namespace PayStream

/-- C8: over any run from a whole-cent budget with nonnegative
allocations, the `remainingBudget` counter is mutated exactly once per
settlement (each `step_complete`/`agent_complete` records the value after
its unique mutation), the recorded values never increase, and on normal
completion the final refund returns exactly the last recorded value
(zeroing the escrow), in both orchestrators. -/
theorem remaining_budget_monotone :
    ∀ (planOut : Option (List Step)) (task reportText : String)
      (work : Step → Except String String) (b : ℚ)
      (cr s a i : Except String Unit)
      (p : Option (Except String (Option String))),
      round2 b = b → 0 ≤ b →
      (∀ st ∈ choosePlan planOut task, 0 ≤ st.allocation) →
      List.Chain' (fun x y => y ≤ x)
        (b :: completionRemainings
          (runMainAgent planOut task reportText work b).1) ∧
      (∀ o : RunOutcome,
        (runMainAgent planOut task reportText work b).2 = Except.ok o →
        o.refunded =
          (completionRemainings
            (runMainAgent planOut task reportText work b).1).getLastD b ∧
        Event.refund o.refunded ∈
          (runMainAgent planOut task reportText work b).1) ∧
      List.Chain' (fun x y => y ≤ x)
        (b :: agentCompletionRemainings (runCodebaseAnalysis b cr s a i p).1) := by
  intro planOut task reportText work b cr s a i p hb hb0 hallocs
  have hcents : Cents b := cents_of_round2_eq hb
  have hpool : 0 ≤ round2 (b * AGENT_BUDGET_RATIO) :=
    round2_nonneg (mul_nonneg hb0 (by norm_num [ AGENT_BUDGET_RATIO]))
  have hshape1 : completionRemainings (runMainAgent planOut task reportText work b).1
      = completionRemainings
          (mainLoop work (round2 (b * AGENT_BUDGET_RATIO))
            (choosePlan planOut task) b).events := by
    simp only [runMainAgent]
    rcases hr : (mainLoop work (round2 (b * AGENT_BUDGET_RATIO))
        (choosePlan planOut task) b).runError with - | e
    · simp [completionRemainings]
    · simp
  refine ⟨?_, ?_, ?_⟩
  · rw [hshape1]
    exact mainLoop_chain work _ hpool _ b hcents hallocs
  · intro o ho
    simp only [runMainAgent] at ho
    rcases hr : (mainLoop work (round2 (b * AGENT_BUDGET_RATIO))
        (choosePlan planOut task) b).runError with - | e
    · rw [hr] at ho
      simp only [Except.ok.injEq] at ho
      subst ho
      constructor
      · rw [hshape1]
        exact mainLoop_remaining_getLastD work _ _ b
      · simp only [runMainAgent, hr]
        simp
    · rw [hr] at ho
      simp at ho
  · have hcrpay : 0 ≤ payment 30 (round2 (b * AGENT_BUDGET_RATIO)) :=
      payment_nonneg (by norm_num) hpool
    have hrem1eq : round2 (b - payment 30 (round2 (b * AGENT_BUDGET_RATIO))) =
        b - payment 30 (round2 (b * AGENT_BUDGET_RATIO)) :=
      round2_sub_eq hcents (cents_payment _ _)
    have hchain := settlePhase2_chain (round2 (b * AGENT_BUDGET_RATIO)) hpool
      (phase2Roster s a i)
      (round2 (b - payment 30 (round2 (b * AGENT_BUDGET_RATIO))))
      (cents_round2 _)
      (by
        intro x hx
        simp only [phase2Roster, List.mem_cons, List.not_mem_nil, or_false] at hx
        rcases hx with rfl | rfl | rfl <;> norm_num)
    have hshape2 : agentCompletionRemainings (runCodebaseAnalysis b cr s a i p).1 =
        round2 (b - payment 30 (round2 (b * AGENT_BUDGET_RATIO))) ::
          agentCompletionRemainings
            (settlePhase2 (round2 (b * AGENT_BUDGET_RATIO)) (phase2Roster s a i)
              (round2 (b - payment 30 (round2 (b * AGENT_BUDGET_RATIO))))).1 := by
      rcases cr with e1 | v1 <;> rcases p with - | (e5 | (- | sid)) <;>
        simp [runCodebaseAnalysis, phase2Roster, agentCompletionRemainings]
    rw [hshape2, List.chain'_cons]
    constructor
    · rw [hrem1eq]
      linarith
    · exact hchain

/-- Witness for C8 at budget 1 with the fallback plan and all work
succeeding. -/
theorem remaining_budget_monotone_witness :
    List.Chain' (fun x y => y ≤ x)
      (1 :: completionRemainings
        (runMainAgent none "t" "r" (fun _ => Except.ok "") 1).1) ∧
    ((⟨31/100, 69/100⟩ : RunOutcome).refunded =
      (completionRemainings
        (runMainAgent none "t" "r" (fun _ => Except.ok "") 1).1).getLastD 1 ∧
      Event.refund (⟨31/100, 69/100⟩ : RunOutcome).refunded ∈
        (runMainAgent none "t" "r" (fun _ => Except.ok "") 1).1) ∧
    List.Chain' (fun x y => y ≤ x)
      (1 :: agentCompletionRemainings
        (runCodebaseAnalysis 1 (.ok ()) (.ok ()) (.ok ()) (.ok ()) none).1) := by
  have h := remaining_budget_monotone none "t" "r" (fun _ => Except.ok "") 1
    (.ok ()) (.ok ()) (.ok ()) (.ok ()) none
    (by norm_num [round2, jsRound]) (by norm_num)
    (by
      intro st hst
      simp only [choosePlan, fallbackSteps, List.mem_cons, List.not_mem_nil,
        or_false] at hst
      rcases hst with rfl | rfl | rfl <;> norm_num)
  exact ⟨h.1,
    h.2.1 ⟨31/100, 69/100⟩
      (by
        norm_num [runMainAgent, choosePlan, fallbackSteps, mainLoop, payment,
          round2, jsRound, AGENT_BUDGET_RATIO]),
    h.2.2⟩

end PayStream

namespace PayStream

/-- C10: for every plan with nonnegative allocations summing to at most
100 and every positive budget, the `remainingBudget < payment` break of
runMainAgent is unreachable: each payment is a rounded share of the agent
pool (30% of the budget rounded to cents), the sum of all payments never
exceeds twice the pool, which never exceeds the budget rounded to cents,
so the remaining budget always covers the next payment; absent a worker
exception every step of the plan is dispatched. -/
theorem budget_exhaustion_unreachable :
    ∀ (planOut : Option (List Step)) (task : String)
      (work : Step → Except String String) (b : ℚ),
      0 < b →
      (∀ st ∈ choosePlan planOut task, 0 ≤ st.allocation) →
      ((choosePlan planOut task).map Step.allocation).sum ≤ 100 →
      (mainLoop work (round2 (b * AGENT_BUDGET_RATIO))
        (choosePlan planOut task) b).exhausted = false ∧
      ((mainLoop work (round2 (b * AGENT_BUDGET_RATIO))
          (choosePlan planOut task) b).runError = none →
        countEvents isStepStart
          (mainLoop work (round2 (b * AGENT_BUDGET_RATIO))
            (choosePlan planOut task) b).events =
          (choosePlan planOut task).length) := by
  intro planOut task work b hb hallocs hsum
  set pool := round2 (b * AGENT_BUDGET_RATIO) with hpooldef
  have hpool : 0 ≤ pool :=
    round2_nonneg (mul_nonneg hb.le (by norm_num [ AGENT_BUDGET_RATIO]))
  cases hplan : choosePlan planOut task with
  | nil => simp [mainLoop, countEvents]
  | cons s rest =>
    rw [hplan] at hallocs hsum
    have ha : 0 ≤ s.allocation := hallocs s (by simp)
    have hrest : ∀ st ∈ rest, 0 ≤ st.allocation :=
      fun st hst => hallocs st (by simp [hst])
    have hsum' : s.allocation + (rest.map Step.allocation).sum ≤ 100 := by
      simpa using hsum
    have hrestalloc : 0 ≤ (rest.map Step.allocation).sum := by
      apply List.sum_nonneg
      intro x hx
      obtain ⟨st, hst, rfl⟩ := List.mem_map.mp hx
      exact hrest st hst
    have halloc100 : s.allocation ≤ 100 := by linarith
    have hpmt1 : payment s.allocation pool ≤ pool := by
      have h1 : payment s.allocation pool ≤ payment 100 pool := by
        rw [payment_eq, payment_eq]
        have hmono := jsRound_mono (mul_le_mul_of_nonneg_right halloc100 hpool)
        have hc : (jsRound (s.allocation * pool) : ℚ) ≤
            (jsRound (100 * pool) : ℚ) := by exact_mod_cast hmono
        linarith
      have h2 : payment 100 pool = pool := by
        rw [payment]
        have harg : (100:ℚ)/100 * pool = pool := by ring
        rw [harg, hpooldef]
        exact round2_eq_self (cents_round2 _)
      linarith
    have hb1 : ¬ b < payment s.allocation pool := by
      push_neg
      calc payment s.allocation pool ≤ pool := hpmt1
        _ ≤ b := by rw [hpooldef]; exact pool_le_budget hb
    have hsumpay : ((s :: rest).map fun st => payment st.allocation pool).sum
        ≤ 2 * pool := by
      have h1 := sum_payments_le pool hpool (s :: rest) hallocs
      have h2 : ((s :: rest).map Step.allocation).sum * pool ≤ 100 * pool :=
        mul_le_mul_of_nonneg_right hsum hpool
      have h3 : ((s :: rest).map Step.allocation).sum * pool / 50 ≤
          100 * pool / 50 := by linarith
      calc ((s :: rest).map fun st => payment st.allocation pool).sum
          ≤ ((s :: rest).map Step.allocation).sum * pool / 50 := h1
        _ ≤ 100 * pool / 50 := h3
        _ = 2 * pool := by ring
    have h2pool : 2 * pool ≤ round2 b := by
      rw [hpooldef]
      exact two_pool_le_round2_budget hb
    rw [mainLoop]
    simp only [hb1, if_false]
    rcases hw : work s with e | v
    · constructor
      · rfl
      · intro hnone
        simp at hnone
    · obtain ⟨c1, hc1⟩ := cents_payment s.allocation pool
      have hrem' : round2 (b - payment s.allocation pool) =
          round2 b - payment s.allocation pool := by
        rw [round2, round2]
        have harg : (b - payment s.allocation pool) * 100 = b * 100 - (c1:ℚ) := by
          rw [hc1]; ring
        rw [harg, jsRound_sub_intCast]
        push_cast
        rw [hc1]
        ring
      have hcover : (rest.map fun st => payment st.allocation pool).sum ≤
          round2 (b - payment s.allocation pool) := by
        rw [hrem']
        simp only [List.map_cons, List.sum_cons] at hsumpay
        linarith
      have hmain := mainLoop_covered work pool hpool rest
        (round2 (b - payment s.allocation pool)) (cents_round2 _) hrest hcover
      refine ⟨hmain.1, fun hnone => ?_⟩
      have hc := hmain.2 hnone
      simp [countEvents, isStepStart, hc]
      omega

/-- Witness for C10: budget 1 with the fallback plan (40/35/25) — no
exhaustion and all three steps dispatched. -/
theorem budget_exhaustion_unreachable_witness :
    (mainLoop (fun _ => Except.ok "") (round2 (1 * AGENT_BUDGET_RATIO))
      (choosePlan none "t") 1).exhausted = false ∧
    countEvents isStepStart
      (mainLoop (fun _ => Except.ok "") (round2 (1 * AGENT_BUDGET_RATIO))
        (choosePlan none "t") 1).events = (choosePlan none "t").length := by
  have h := budget_exhaustion_unreachable none "t" (fun _ => Except.ok "") 1
    (by norm_num)
    (by
      intro st hst
      simp only [choosePlan, fallbackSteps, List.mem_cons, List.not_mem_nil,
        or_false] at hst
      rcases hst with rfl | rfl | rfl <;> norm_num)
    (by norm_num [choosePlan, fallbackSteps])
  exact ⟨h.1, h.2
    (by
      norm_num [mainLoop, choosePlan, fallbackSteps, payment, round2, jsRound,
        AGENT_BUDGET_RATIO])⟩

end PayStream
